import Mathlib

/-!
# Verification of `Launch_Control_XL/TrackMacroComponent.py`

Shallow embedding of the `TrackMacroComponent` class.  Host entities
(mixer, song, tracks, devices, parameters, encoders) are modelled as plain
data; each host call that the Python code performs and that may raise is
modelled with an explicit boolean raise flag on the corresponding entity.
Operations that may let a Python exception escape are embedded in
`Except Unit`; operations that swallow every exception are total functions.

The component state carries, besides the `_current_params` array and the
`_track_listeners` registry of the source, a ghost `events` trace recording
every observable host call (encoder release/connect, listener add/remove)
together with whether the call succeeded, plus a ghost marker for each
assignment to `_current_params`.  The trace is write-only: no definition
reads it, so it cannot influence control flow.
-/

/-- A host `Parameter`: has a name; `pid` is its identity. -/
structure Param where
  name : String
  pid : Nat
deriving DecidableEq, Repr

/-- A host `Device`: has a name and an ordered parameter list.
`paramsRaises` models `device.parameters` raising when accessed. -/
structure Device where
  name : String
  paramsRaises : Bool
  parameters : List Param
deriving DecidableEq, Repr

/-- A host `Track`.  `tid` models Python `id(track)` (track identity).
`devicesRaises` models `track.devices` raising; `addListenerRaises` models
`track.add_devices_listener` raising; `removeListenerRaises` models
`track.remove_devices_listener` raising. -/
structure Track where
  tid : Nat
  devicesRaises : Bool
  devices : List Device
  addListenerRaises : Bool
  removeListenerRaises : Bool
deriving DecidableEq, Repr

/-- A hardware encoder control.  `releaseRaises` / `connectRaises` model
`encoder.release_parameter()` / `encoder.connect_to(param)` raising. -/
structure Encoder where
  eid : Nat
  releaseRaises : Bool
  connectRaises : Bool
deriving DecidableEq, Repr

/-- The host side seen through `self._mixer` and `self._song`:
`offsetRaises` models `mixer.track_offset()` raising, `tracksRaises` models
`song.visible_tracks` raising.  Per the host contract the offset is an
integer `≥ 0`, so it is a `Nat`. -/
structure Host where
  offsetRaises : Bool
  offset : Nat
  tracksRaises : Bool
  visibleTracks : List Track
deriving DecidableEq, Repr

/-- Ghost trace entries.  `releaseCall`/`connectCall`/`addListenerCall`/
`removeListenerCall` record the host calls the component issues, with
`ok = true` iff the call did not raise.  `rebindDone i p` marks the
assignment `self._current_params[index] = freq_param` in `_map_encoder`. -/
inductive HEvent where
  | releaseCall (eid : Nat) (ok : Bool)
  | connectCall (eid : Nat) (p : Param) (ok : Bool)
  | addListenerCall (tid : Nat) (slot : Nat)
  | removeListenerCall (tid : Nat) (ok : Bool)
  | rebindDone (slot : Nat) (p : Option Param)
deriving DecidableEq, Repr

/-- The component's own state: `_current_params` (one `Option Param` per
slot), `_track_listeners` (a dict `id(track) -> (track, callback)`; the
callback closure is represented by the slot index it captured), and the
ghost event trace. -/
structure CState where
  currentParams : List (Option Param)
  trackListeners : List (Nat × (Track × Nat))
  events : List HEvent
deriving DecidableEq, Repr

def AUTO_FILTER_NAME : String := "Auto Filter"

def FREQUENCY_PARAM_NAME : String := "Frequency"

/-- `_get_track(index)` body inside the `try`: read the offset, read the
visible-track list, and index into it guarded by a length check. -/
def getTrackAux (host : Host) (index : Nat) : Except Unit (Option Track) :=
  if host.offsetRaises then .error ()
  else if host.tracksRaises then .error ()
  else if h : host.offset + index < host.visibleTracks.length then
    .ok (some (host.visibleTracks.get ⟨host.offset + index, h⟩))
  else
    .ok none

/-- `_get_track(index)`: the `try/except Exception: pass` swallows every
failure and yields `None`, so the embedding is total. -/
def getTrack (host : Host) (index : Nat) : Option Track :=
  match getTrackAux host index with
  | .ok r => r
  | .error _ => none

/-- `_find_auto_filter(track)`: linear scan of `track.devices` for the first
device named `AUTO_FILTER_NAME`.  The scan is not inside a `try`, so a
raising `track.devices` propagates. -/
def findAutoFilter (track : Option Track) : Except Unit (Option Device) :=
  match track with
  | none => .ok none
  | some t =>
    if t.devicesRaises then .error ()
    else .ok (t.devices.find? (fun d => d.name == AUTO_FILTER_NAME))

/-- `_get_frequency_param(device)`: linear scan of `device.parameters` for
the first parameter named `FREQUENCY_PARAM_NAME`; not inside a `try`. -/
def getFrequencyParam (device : Option Device) : Except Unit (Option Param) :=
  match device with
  | none => .ok none
  | some d =>
    if d.paramsRaises then .error ()
    else .ok (d.parameters.find? (fun p => p.name == FREQUENCY_PARAM_NAME))

/-- The resolution chain of `_map_encoder`: track, then device, then
frequency parameter. -/
def resolveFreq (host : Host) (index : Nat) : Except Unit (Option Param) :=
  match findAutoFilter (getTrack host index) with
  | .error e => .error e
  | .ok device => getFrequencyParam device

/-- The value `resolveFreq` yields when it succeeds (`none` when it
raises); used only to state theorems. -/
def resolvedParam (host : Host) (index : Nat) : Option Param :=
  match resolveFreq host index with
  | .ok r => r
  | .error _ => none

/-- The tail of `_map_encoder` once the parameter is resolved: release the
old binding if one was recorded (call swallowed), record the new parameter,
and connect if one was found (call swallowed). -/
def applyBind (encoder : Encoder) (index : Nat) (freqParam : Option Param)
    (st : CState) : CState :=
  let st1 :=
    match st.currentParams.getD index none with
    | none => st
    | some _ =>
      { st with events := st.events ++ [HEvent.releaseCall encoder.eid (!encoder.releaseRaises)] }
  let st2 :=
    { st1 with
      currentParams := st1.currentParams.set index freqParam,
      events := st1.events ++ [HEvent.rebindDone index freqParam] }
  match freqParam with
  | none => st2
  | some p =>
    { st2 with events := st2.events ++ [HEvent.connectCall encoder.eid p (!encoder.connectRaises)] }

/-- `_map_encoder(index)`.  `self._encoders[index]` raises out of range;
a `None` encoder returns immediately; then resolution (which may raise,
before any mutation) followed by the state update `applyBind`. -/
def mapEncoder (host : Host) (encoders : List (Option Encoder)) (index : Nat)
    (st : CState) : Except Unit CState :=
  if h : index < encoders.length then
    match encoders.get ⟨index, h⟩ with
    | none => .ok st
    | some encoder =>
      match resolveFreq host index with
      | .error e => .error e
      | .ok freqParam => .ok (applyBind encoder index freqParam st)
  else .error ()

/-- `_add_device_listener(index)`: resolve the track; if present and its
`id` is not yet a key of `_track_listeners`, call
`track.add_devices_listener(callback)` (NOT inside a `try`: a raise
propagates and the registry entry is not written) and record the entry. -/
def addDeviceListener (host : Host) (index : Nat) (st : CState) :
    Except Unit CState :=
  match getTrack host index with
  | none => .ok st
  | some t =>
    if st.trackListeners.any (fun q => q.1 == t.tid) then .ok st
    else if t.addListenerRaises then .error ()
    else
      .ok { st with
            trackListeners := st.trackListeners ++ [(t.tid, (t, index))],
            events := st.events ++ [HEvent.addListenerCall t.tid index] }

/-- `_remove_device_listeners()`: call `remove_devices_listener` on every
registered pair (each call in its own `try`, so total), then reset the
registry to the empty dict. -/
def removeDeviceListeners (st : CState) : CState :=
  { st with
    trackListeners := [],
    events := st.events ++
      st.trackListeners.map (fun q => HEvent.removeListenerCall q.2.1.tid (!q.2.1.removeListenerRaises)) }

/-- One iteration of the `for i in range(self._num_tracks)` loop of
`_update_all_mappings`: `_map_encoder(i)` then `_add_device_listener(i)`. -/
def bankStep (host : Host) (encoders : List (Option Encoder)) (i : Nat)
    (st : CState) : Except Unit CState :=
  match mapEncoder host encoders i st with
  | .error e => .error e
  | .ok st1 => addDeviceListener host i st1

/-- The `for` loop of `_update_all_mappings` over an explicit index list. -/
def bankLoop (host : Host) (encoders : List (Option Encoder)) :
    List Nat → CState → Except Unit CState
  | [], st => .ok st
  | i :: rest, st =>
    match bankStep host encoders i st with
    | .error e => .error e
    | .ok st1 => bankLoop host encoders rest st1

/-- `_update_all_mappings()`: remove every device listener, then loop over
the slots in index order `0 .. numTracks-1`. -/
def updateAllMappings (host : Host) (encoders : List (Option Encoder))
    (numTracks : Nat) (st : CState) : Except Unit CState :=
  bankLoop host encoders (List.range numTracks) (removeDeviceListeners st)

/-- `on_track_offset_changed()` just runs a full remap. -/
def onTrackOffsetChanged (host : Host) (encoders : List (Option Encoder))
    (numTracks : Nat) (st : CState) : Except Unit CState :=
  updateAllMappings host encoders numTracks st

/-- `__init__`: `_current_params = [None] * num_tracks`, empty listener
registry, then an initial full remap. -/
def initComponent (host : Host) (encoders : List (Option Encoder))
    (numTracks : Nat) : Except Unit CState :=
  updateAllMappings host encoders numTracks
    { currentParams := List.replicate numTracks none,
      trackListeners := [],
      events := [] }

/-- `disconnect()`: remove every device listener, then
`encoder.release_parameter()` for every non-`None` encoder (each call in
its own `try`, so total).  Note: `_current_params` is not touched. -/
def disconnect (encoders : List (Option Encoder)) (st : CState) : CState :=
  let st1 := removeDeviceListeners st
  { st1 with
    events := st1.events ++
      (encoders.filterMap id).map (fun e => HEvent.releaseCall e.eid (!e.releaseRaises)) }

/-- Replay one trace entry for slot `i`: a `rebindDone i p` marker
overwrites the record, every other entry leaves it alone. -/
def rebindStep (i : Nat) (acc : Option Param) (e : HEvent) : Option Param :=
  match e with
  | HEvent.rebindDone j p => if j == i then p else acc
  | _ => acc

/-- The parameter recorded by the most recent `_current_params[index] = _`
assignment for slot `i` in the trace (`none` when there is none). -/
def lastRebind (events : List HEvent) (i : Nat) : Option Param :=
  events.foldl (rebindStep i) none

/-- The parameter an encoder is actually bound to after the trace: a
successful `connect_to` binds, a successful `release_parameter` unbinds,
failed calls change nothing. -/
def encoderBound (events : List HEvent) (eid : Nat) : Option Param :=
  events.foldl
    (fun acc e =>
      match e with
      | HEvent.connectCall eid2 p ok => if eid2 == eid && ok then some p else acc
      | HEvent.releaseCall eid2 ok => if eid2 == eid && ok then none else acc
      | _ => acc)
    none

/-- States reachable through the component's entry points: construction,
full remap (`on_track_offset_changed`), a device-change listener callback
(which runs `_map_encoder` on its captured slot), and `disconnect`.  The
host may differ between steps (tracks/devices change between callbacks). -/
inductive Reachable (encoders : List (Option Encoder)) (numTracks : Nat) :
    CState → Prop
  | init (host : Host) (st : CState) :
      initComponent host encoders numTracks = .ok st →
      Reachable encoders numTracks st
  | remap (host : Host) (st st' : CState) :
      Reachable encoders numTracks st →
      updateAllMappings host encoders numTracks st = .ok st' →
      Reachable encoders numTracks st'
  | callback (host : Host) (i : Nat) (st st' : CState) :
      Reachable encoders numTracks st →
      i < numTracks →
      mapEncoder host encoders i st = .ok st' →
      Reachable encoders numTracks st'
  | disc (st : CState) :
      Reachable encoders numTracks st →
      Reachable encoders numTracks (disconnect encoders st)

/-- Exceptions from device enumeration, parameter enumeration and listener
registration are the ones `_update_all_mappings` does not guard against; a
host is benign when none of those raise.  (Mixer/song and encoder failures
are always swallowed.) -/
def benignHost (host : Host) : Prop :=
  ∀ t ∈ host.visibleTracks,
    t.devicesRaises = false ∧ t.addListenerRaises = false ∧
    ∀ d ∈ t.devices, d.paramsRaises = false

/-- `_current_params` has the component's slot count and each entry equals
the value written by the most recent `_current_params[i] = _` assignment
(`none` when slot `i` was never assigned). -/
def ParamsInv (n : Nat) (st : CState) : Prop :=
  st.currentParams.length = n ∧
  ∀ i, st.currentParams.getD i none = lastRebind st.events i

/-- The keys of the `_track_listeners` dict: the `id(track)` values that
currently have a registered device-change listener. -/
def keysOf (st : CState) : List Nat := st.trackListeners.map Prod.fst

/-! ## Concrete fixtures used by witnesses and counterexamples -/

/-- A frequency parameter of an Auto Filter. -/
def exFreqParam : Param := ⟨"Frequency", 100⟩

/-- An Auto Filter device carrying a Frequency parameter. -/
def exAutoFilter : Device := ⟨"Auto Filter", false, [exFreqParam]⟩

/-- An Auto Filter device with no parameters at all. -/
def exEmptyAutoFilter : Device := ⟨"Auto Filter", false, []⟩

/-- A track whose only device is an Auto Filter with a Frequency. -/
def exGoodTrack : Track := ⟨1, false, [exAutoFilter], false, false⟩

/-- A host with one visible track and a working mixer/song. -/
def exGoodHost : Host := ⟨false, 0, false, [exGoodTrack]⟩

/-- A well-behaved encoder. -/
def exEncoder : Encoder := ⟨7, false, false⟩

/-- A one-slot encoder bank. -/
def exEncoders : List (Option Encoder) := [some exEncoder]

/-- A track with two Auto Filters: the first has no Frequency parameter,
the second does. -/
def exTwoAFTrack : Track := ⟨2, false, [exEmptyAutoFilter, exAutoFilter], false, false⟩

/-- Host exposing `exTwoAFTrack`. -/
def exTwoAFHost : Host := ⟨false, 0, false, [exTwoAFTrack]⟩

/-- A track whose `devices` property raises. -/
def exRaisingTrack : Track := ⟨3, true, [], false, false⟩

/-- Host exposing `exRaisingTrack`. -/
def exRaisingHost : Host := ⟨false, 0, false, [exRaisingTrack]⟩

/-- An Auto Filter whose `parameters` property raises. -/
def exParamsRaisingDevice : Device := ⟨"Auto Filter", true, []⟩

/-- Track carrying `exParamsRaisingDevice`. -/
def exParamsRaisingTrack : Track := ⟨4, false, [exParamsRaisingDevice], false, false⟩

/-- Host exposing `exParamsRaisingTrack`. -/
def exParamsRaisingHost : Host := ⟨false, 0, false, [exParamsRaisingTrack]⟩

/-- A track whose `add_devices_listener` raises. -/
def exListenerRaisingTrack : Track := ⟨5, false, [], true, false⟩

/-- Host exposing `exListenerRaisingTrack`. -/
def exListenerRaisingHost : Host := ⟨false, 0, false, [exListenerRaisingTrack]⟩

/-- An encoder whose `connect_to` raises. -/
def exConnRaisesEncoders : List (Option Encoder) := [some ⟨9, false, true⟩]

/-- The component state as built at the top of `__init__`. -/
def exStart (n : Nat) : CState := ⟨List.replicate n none, [], []⟩

/-- The state `_map_encoder(0)` produces from `exStart 1` on `exGoodHost`. -/
def exMapResult : CState :=
  ⟨[some exFreqParam], [],
   [HEvent.rebindDone 0 (some exFreqParam), HEvent.connectCall 7 exFreqParam true]⟩

/-- The state a full remap produces from `exStart 1` on `exGoodHost`. -/
def exRemapResult : CState :=
  ⟨[some exFreqParam], [(1, (exGoodTrack, 0))],
   [HEvent.rebindDone 0 (some exFreqParam), HEvent.connectCall 7 exFreqParam true,
    HEvent.addListenerCall 1 0]⟩

/-! ## Basic lemmas about the operations -/

theorem applyBind_currentParams (e : Encoder) (i : Nat) (r : Option Param)
    (st : CState) :
    (applyBind e i r st).currentParams = st.currentParams.set i r := by
  unfold applyBind
  cases st.currentParams.getD i none <;> cases r <;> simp

theorem applyBind_trackListeners (e : Encoder) (i : Nat) (r : Option Param)
    (st : CState) :
    (applyBind e i r st).trackListeners = st.trackListeners := by
  unfold applyBind
  cases st.currentParams.getD i none <;> cases r <;> simp

theorem applyBind_events (e : Encoder) (i : Nat) (r : Option Param)
    (st : CState) :
    ∃ pre post,
      (applyBind e i r st).events = st.events ++ (pre ++ HEvent.rebindDone i r :: post) ∧
      (∀ ev ∈ pre, ∀ j p, ev ≠ HEvent.rebindDone j p) ∧
      (∀ ev ∈ post, ∀ j p, ev ≠ HEvent.rebindDone j p) := by
  unfold applyBind
  cases st.currentParams.getD i none <;> cases r
  case none.none =>
    exact ⟨[], [], by simp, by simp, by simp⟩
  case none.some p =>
    exact ⟨[], [HEvent.connectCall e.eid p (!e.connectRaises)], by simp, by simp, by simp⟩
  case some.none q =>
    exact ⟨[HEvent.releaseCall e.eid (!e.releaseRaises)], [], by simp, by simp, by simp⟩
  case some.some q p =>
    exact ⟨[HEvent.releaseCall e.eid (!e.releaseRaises)],
      [HEvent.connectCall e.eid p (!e.connectRaises)], by simp, by simp, by simp⟩

theorem mapEncoder_ok_none {host : Host} {encoders : List (Option Encoder)}
    {i : Nat} (h : i < encoders.length) (hg : encoders.get ⟨i, h⟩ = none)
    (st : CState) : mapEncoder host encoders i st = .ok st := by
  unfold mapEncoder
  rw [dif_pos h, hg]

theorem mapEncoder_some_ok {host : Host} {encoders : List (Option Encoder)}
    {i : Nat} {e : Encoder} {r : Option Param}
    (h : i < encoders.length) (hg : encoders.get ⟨i, h⟩ = some e)
    (hr : resolveFreq host i = .ok r) (st : CState) :
    mapEncoder host encoders i st = .ok (applyBind e i r st) := by
  unfold mapEncoder
  rw [dif_pos h, hg, hr]

theorem mapEncoder_ok_elim {host : Host} {encoders : List (Option Encoder)}
    {i : Nat} {st st' : CState}
    (hm : mapEncoder host encoders i st = .ok st') :
    ∃ h : i < encoders.length,
      (encoders.get ⟨i, h⟩ = none ∧ st' = st) ∨
      ∃ e r, encoders.get ⟨i, h⟩ = some e ∧ resolveFreq host i = .ok r ∧
        st' = applyBind e i r st := by
  unfold mapEncoder at hm
  split at hm
  case isTrue h =>
    refine ⟨h, ?_⟩
    cases hg : encoders.get ⟨i, h⟩ with
    | none =>
      rw [hg] at hm
      simp only [Except.ok.injEq] at hm
      exact Or.inl ⟨rfl, hm.symm⟩
    | some e =>
      rw [hg] at hm
      cases hr : resolveFreq host i with
      | error err => rw [hr] at hm; cases hm
      | ok r =>
        rw [hr] at hm
        simp only [Except.ok.injEq] at hm
        exact Or.inr ⟨e, r, rfl, rfl, hm.symm⟩
  case isFalse h => cases hm

theorem getTrackAux_no_raise {host : Host} {i : Nat}
    (h1 : host.offsetRaises = false) (h2 : host.tracksRaises = false) :
    getTrackAux host i = .ok (host.visibleTracks[host.offset + i]?) := by
  unfold getTrackAux
  rw [h1, h2]
  simp only [Bool.false_eq_true, if_false]
  split
  · rename_i h
    simp [List.getElem?_eq_getElem h, List.get_eq_getElem]
  · rename_i h
    simp [List.getElem?_eq_none (Nat.le_of_not_lt h)]

theorem getTrack_eq_of_no_raise {host : Host} {i : Nat}
    (h1 : host.offsetRaises = false) (h2 : host.tracksRaises = false) :
    getTrack host i = host.visibleTracks[host.offset + i]? := by
  unfold getTrack
  rw [getTrackAux_no_raise h1 h2]

theorem getTrackAux_raise {host : Host} {i : Nat}
    (h : host.offsetRaises = true ∨ host.tracksRaises = true) :
    getTrackAux host i = .error () := by
  unfold getTrackAux
  rcases h with h | h <;> simp [h]

theorem getTrack_raise {host : Host} {i : Nat}
    (h : host.offsetRaises = true ∨ host.tracksRaises = true) :
    getTrack host i = none := by
  unfold getTrack
  rw [getTrackAux_raise h]

theorem getTrack_mem {host : Host} {i : Nat} {t : Track}
    (h : getTrack host i = some t) : t ∈ host.visibleTracks := by
  unfold getTrack at h
  cases haux : getTrackAux host i with
  | error err => rw [haux] at h; cases h
  | ok r =>
    rw [haux] at h
    simp only at h
    unfold getTrackAux at haux
    split at haux
    · cases haux
    · split at haux
      · cases haux
      · split at haux
        · simp only [Except.ok.injEq] at haux
          rw [← haux] at h
          simp only [Option.some.injEq] at h
          exact h ▸ List.get_mem _ _ _
        · simp only [Except.ok.injEq] at haux
          rw [← haux] at h
          cases h

/-! ## Trace lemmas for the recorded-parameter marker -/

theorem rebindStep_skip {i : Nat} {acc : Option Param} {e : HEvent}
    (h : ∀ p, e ≠ HEvent.rebindDone i p) : rebindStep i acc e = acc := by
  cases e with
  | rebindDone j p =>
    have hji : j ≠ i := by
      intro hji
      exact h p (by rw [hji])
    simp [rebindStep, hji]
  | releaseCall eid ok => rfl
  | connectCall eid p ok => rfl
  | addListenerCall tid slot => rfl
  | removeListenerCall tid ok => rfl

theorem foldl_rebindStep_skip {i : Nat} {l : List HEvent} (acc : Option Param)
    (h : ∀ ev ∈ l, ∀ p, ev ≠ HEvent.rebindDone i p) :
    l.foldl (rebindStep i) acc = acc := by
  induction l generalizing acc with
  | nil => rfl
  | cons ev rest ih =>
    rw [List.foldl_cons, rebindStep_skip (h ev (List.mem_cons_self _ _))]
    exact ih acc fun e he p => h e (List.mem_cons_of_mem _ he) p

theorem lastRebind_append_skip {l1 l2 : List HEvent} {i : Nat}
    (h : ∀ ev ∈ l2, ∀ p, ev ≠ HEvent.rebindDone i p) :
    lastRebind (l1 ++ l2) i = lastRebind l1 i := by
  unfold lastRebind
  rw [List.foldl_append]
  exact foldl_rebindStep_skip _ h

theorem lastRebind_hit {l1 pre post : List HEvent} {i : Nat} {r : Option Param}
    (hpost : ∀ ev ∈ post, ∀ p, ev ≠ HEvent.rebindDone i p) :
    lastRebind (l1 ++ (pre ++ HEvent.rebindDone i r :: post)) i = r := by
  unfold lastRebind
  rw [show l1 ++ (pre ++ HEvent.rebindDone i r :: post) =
      ((l1 ++ pre) ++ [HEvent.rebindDone i r]) ++ post by simp]
  rw [List.foldl_append, foldl_rebindStep_skip _ hpost, List.foldl_append]
  simp [rebindStep]

/-! ## The bookkeeping invariant (claim C9, amended form) -/

theorem paramsInv_applyBind {n : Nat} {st : CState} {e : Encoder} {i : Nat}
    {r : Option Param} (hi : i < n) (hInv : ParamsInv n st) :
    ParamsInv n (applyBind e i r st) := by
  obtain ⟨hlen, hrec⟩ := hInv
  obtain ⟨pre, post, hev, hpre, hpost⟩ := applyBind_events e i r st
  constructor
  · rw [applyBind_currentParams, List.length_set, hlen]
  · intro j
    rw [applyBind_currentParams, hev]
    by_cases hji : j = i
    · subst hji
      rw [List.getD_eq_getElem?_getD,
        List.getElem?_set_self (by rw [hlen]; exact hi),
        lastRebind_hit (fun ev hm p => hpost ev hm j p)]
      rfl
    · have hne : ∀ ev ∈ pre ++ HEvent.rebindDone i r :: post, ∀ p,
          ev ≠ HEvent.rebindDone j p := by
        intro ev hmem p
        rcases List.mem_append.mp hmem with hm | hm
        · exact hpre ev hm j p
        · rcases List.mem_cons.mp hm with hm | hm
          · subst hm
            intro hcontra
            injection hcontra with h1 h2
            exact hji h1.symm
          · exact hpost ev hm j p
      rw [lastRebind_append_skip hne, List.getD_eq_getElem?_getD,
        List.getElem?_set_ne (fun hc => hji hc.symm),
        ← List.getD_eq_getElem?_getD]
      exact hrec j

theorem paramsInv_mapEncoder {n : Nat} {host : Host}
    {encoders : List (Option Encoder)} {i : Nat} {st st' : CState}
    (hlen : encoders.length = n) (hInv : ParamsInv n st)
    (hm : mapEncoder host encoders i st = .ok st') : ParamsInv n st' := by
  obtain ⟨h, hcase⟩ := mapEncoder_ok_elim hm
  rcases hcase with ⟨-, rfl⟩ | ⟨e, r, -, -, rfl⟩
  · exact hInv
  · exact paramsInv_applyBind (hlen ▸ h) hInv

theorem paramsInv_addDeviceListener {n : Nat} {host : Host} {i : Nat}
    {st st' : CState} (hInv : ParamsInv n st)
    (h : addDeviceListener host i st = .ok st') : ParamsInv n st' := by
  unfold addDeviceListener at h
  split at h
  · simp only [Except.ok.injEq] at h
    exact h ▸ hInv
  · split at h
    · simp only [Except.ok.injEq] at h
      exact h ▸ hInv
    · split at h
      · cases h
      · simp only [Except.ok.injEq] at h
        obtain ⟨hlen, hrec⟩ := hInv
        refine h ▸ ⟨hlen, fun j => ?_⟩
        simp only
        rw [lastRebind_append_skip (by intro ev hmem p; simp at hmem; simp [hmem])]
        exact hrec j

theorem paramsInv_removeDeviceListeners {n : Nat} {st : CState}
    (hInv : ParamsInv n st) : ParamsInv n (removeDeviceListeners st) := by
  obtain ⟨hlen, hrec⟩ := hInv
  refine ⟨hlen, fun j => ?_⟩
  unfold removeDeviceListeners
  simp only
  rw [lastRebind_append_skip ?_]
  · exact hrec j
  · intro ev hmem p
    rcases List.mem_map.mp hmem with ⟨q, hq, rfl⟩
    simp

theorem paramsInv_disconnect {n : Nat} {encoders : List (Option Encoder)}
    {st : CState} (hInv : ParamsInv n st) :
    ParamsInv n (disconnect encoders st) := by
  obtain ⟨hlen, hrec⟩ := paramsInv_removeDeviceListeners hInv
  refine ⟨hlen, fun j => ?_⟩
  unfold disconnect
  simp only
  rw [lastRebind_append_skip ?_]
  · exact hrec j
  · intro ev hmem p
    rcases List.mem_map.mp hmem with ⟨q, hq, rfl⟩
    simp

theorem paramsInv_bankLoop {n : Nat} {host : Host}
    {encoders : List (Option Encoder)} (hlen : encoders.length = n)
    (l : List Nat) :
    ∀ {st st' : CState}, ParamsInv n st →
      bankLoop host encoders l st = .ok st' → ParamsInv n st' := by
  induction l with
  | nil =>
    intro st st' hInv h
    unfold bankLoop at h
    simp only [Except.ok.injEq] at h
    exact h ▸ hInv
  | cons i rest ih =>
    intro st st' hInv h
    unfold bankLoop at h
    cases hstep : bankStep host encoders i st with
    | error e => rw [hstep] at h; cases h
    | ok st1 =>
      rw [hstep] at h
      unfold bankStep at hstep
      cases hme : mapEncoder host encoders i st with
      | error e => rw [hme] at hstep; cases hstep
      | ok stm =>
        rw [hme] at hstep
        exact ih (paramsInv_addDeviceListener
          (paramsInv_mapEncoder hlen hInv hme) hstep) h

theorem paramsInv_updateAllMappings {n : Nat} {host : Host}
    {encoders : List (Option Encoder)} {st st' : CState}
    (hlen : encoders.length = n) (hInv : ParamsInv n st)
    (h : updateAllMappings host encoders n st = .ok st') : ParamsInv n st' :=
  paramsInv_bankLoop hlen _ (paramsInv_removeDeviceListeners hInv) h

theorem paramsInv_start (n : Nat) :
    ParamsInv n (CState.mk (List.replicate n none) [] []) := by
  refine ⟨List.length_replicate _ _, fun j => ?_⟩
  rw [List.getD_eq_getElem?_getD]
  simp only [List.getElem?_replicate]
  split <;> rfl

theorem paramsInv_reachable {encoders : List (Option Encoder)} {n : Nat}
    (hlen : encoders.length = n) :
    ∀ {st : CState}, Reachable encoders n st → ParamsInv n st := by
  intro st h
  induction h with
  | init host st h =>
    exact paramsInv_updateAllMappings hlen (paramsInv_start n) h
  | remap host st st' _ h ih => exact paramsInv_updateAllMappings hlen ih h
  | callback host i st st' _ hi h ih => exact paramsInv_mapEncoder hlen ih h
  | disc st _ ih => exact paramsInv_disconnect ih

/-! ## Listener registry lemmas (claim C5) -/

theorem mapEncoder_trackListeners {host : Host}
    {encoders : List (Option Encoder)} {i : Nat} {st st' : CState}
    (hm : mapEncoder host encoders i st = .ok st') :
    st'.trackListeners = st.trackListeners := by
  obtain ⟨h, hcase⟩ := mapEncoder_ok_elim hm
  rcases hcase with ⟨-, rfl⟩ | ⟨e, r, -, -, rfl⟩
  · rfl
  · exact applyBind_trackListeners _ _ _ _

theorem addDeviceListener_keys {host : Host} {i : Nat} {st st' : CState}
    (h : addDeviceListener host i st = .ok st') (tid : Nat) :
    tid ∈ keysOf st' ↔
      tid ∈ keysOf st ∨ ∃ t, getTrack host i = some t ∧ t.tid = tid := by
  unfold addDeviceListener at h
  split at h
  · rename_i hg
    simp only [Except.ok.injEq] at h
    subst h
    simp [hg]
  · rename_i t hg
    split at h
    · rename_i hany
      simp only [Except.ok.injEq] at h
      subst h
      constructor
      · exact fun hm => Or.inl hm
      · rintro (hm | ⟨t', ht', rfl⟩)
        · exact hm
        · rw [hg] at ht'
          cases ht'
          rcases List.any_eq_true.mp hany with ⟨q, hq, hbeq⟩
          have hq1 : q.1 = t.tid := by simpa using hbeq
          exact hq1 ▸ List.mem_map.mpr ⟨q, hq, rfl⟩
    · split at h
      · cases h
      · simp only [Except.ok.injEq] at h
        subst h
        unfold keysOf
        simp only [List.map_append, List.map_cons, List.map_nil,
          List.mem_append, List.mem_cons, List.not_mem_nil, or_false, hg]
        constructor
        · rintro (hm | hm)
          · exact Or.inl hm
          · exact Or.inr ⟨t, rfl, hm.symm⟩
        · rintro (hm | ⟨t', ht', rfl⟩)
          · exact Or.inl hm
          · cases ht'
            exact Or.inr rfl

theorem addDeviceListener_nodup {host : Host} {i : Nat} {st st' : CState}
    (h : addDeviceListener host i st = .ok st')
    (hnd : (keysOf st).Nodup) : (keysOf st').Nodup := by
  unfold addDeviceListener at h
  split at h
  · simp only [Except.ok.injEq] at h
    exact h ▸ hnd
  · rename_i t hg
    split at h
    · simp only [Except.ok.injEq] at h
      exact h ▸ hnd
    · rename_i hany
      split at h
      · cases h
      · simp only [Except.ok.injEq] at h
        subst h
        unfold keysOf
        simp only [List.map_append, List.map_cons, List.map_nil]
        rw [List.nodup_append]
        refine ⟨hnd, List.nodup_singleton _, ?_⟩
        intro a ha hb
        simp only [List.mem_singleton] at hb
        subst hb
        rcases List.mem_map.mp ha with ⟨q, hq, hfst⟩
        exact hany (List.any_eq_true.mpr ⟨q, hq, by simp [hfst]⟩)

theorem bankStep_keys {host : Host} {encoders : List (Option Encoder)}
    {i : Nat} {st st' : CState} (h : bankStep host encoders i st = .ok st')
    (tid : Nat) :
    tid ∈ keysOf st' ↔
      tid ∈ keysOf st ∨ ∃ t, getTrack host i = some t ∧ t.tid = tid := by
  unfold bankStep at h
  cases hme : mapEncoder host encoders i st with
  | error e => rw [hme] at h; cases h
  | ok stm =>
    rw [hme] at h
    have hk : keysOf stm = keysOf st := by
      unfold keysOf
      rw [mapEncoder_trackListeners hme]
    rw [← hk]
    exact addDeviceListener_keys h tid

theorem bankStep_nodup {host : Host} {encoders : List (Option Encoder)}
    {i : Nat} {st st' : CState} (h : bankStep host encoders i st = .ok st')
    (hnd : (keysOf st).Nodup) : (keysOf st').Nodup := by
  unfold bankStep at h
  cases hme : mapEncoder host encoders i st with
  | error e => rw [hme] at h; cases h
  | ok stm =>
    rw [hme] at h
    refine addDeviceListener_nodup h ?_
    unfold keysOf
    rw [mapEncoder_trackListeners hme]
    exact hnd

theorem bankLoop_keys {host : Host} {encoders : List (Option Encoder)}
    (l : List Nat) :
    ∀ {st st' : CState}, bankLoop host encoders l st = .ok st' →
      ∀ tid, tid ∈ keysOf st' ↔
        tid ∈ keysOf st ∨ ∃ i ∈ l, ∃ t, getTrack host i = some t ∧ t.tid = tid := by
  induction l with
  | nil =>
    intro st st' h tid
    unfold bankLoop at h
    simp only [Except.ok.injEq] at h
    subst h
    simp
  | cons i rest ih =>
    intro st st' h tid
    unfold bankLoop at h
    cases hstep : bankStep host encoders i st with
    | error e => rw [hstep] at h; cases h
    | ok st1 =>
      rw [hstep] at h
      rw [ih h tid, bankStep_keys hstep tid]
      simp only [List.mem_cons]
      constructor
      · rintro ((hm | ⟨t, ht, rfl⟩) | ⟨j, hj, t, ht, rfl⟩)
        · exact Or.inl hm
        · exact Or.inr ⟨i, Or.inl rfl, t, ht, rfl⟩
        · exact Or.inr ⟨j, Or.inr hj, t, ht, rfl⟩
      · rintro (hm | ⟨j, hj | hj, t, ht, rfl⟩)
        · exact Or.inl (Or.inl hm)
        · exact Or.inl (Or.inr ⟨t, hj ▸ ht, rfl⟩)
        · exact Or.inr ⟨j, hj, t, ht, rfl⟩

theorem bankLoop_nodup {host : Host} {encoders : List (Option Encoder)}
    (l : List Nat) :
    ∀ {st st' : CState}, bankLoop host encoders l st = .ok st' →
      (keysOf st).Nodup → (keysOf st').Nodup := by
  induction l with
  | nil =>
    intro st st' h hnd
    unfold bankLoop at h
    simp only [Except.ok.injEq] at h
    exact h ▸ hnd
  | cons i rest ih =>
    intro st st' h hnd
    unfold bankLoop at h
    cases hstep : bankStep host encoders i st with
    | error e => rw [hstep] at h; cases h
    | ok st1 =>
      rw [hstep] at h
      exact ih h (bankStep_nodup hstep hnd)

theorem keysOf_removeDeviceListeners (st : CState) :
    keysOf (removeDeviceListeners st) = [] := rfl

theorem keysOf_disconnect (encoders : List (Option Encoder)) (st : CState) :
    keysOf (disconnect encoders st) = [] := rfl

theorem updateAllMappings_keys {host : Host}
    {encoders : List (Option Encoder)} {n : Nat} {st st' : CState}
    (h : updateAllMappings host encoders n st = .ok st') :
    (keysOf st').Nodup ∧
    ∀ tid, tid ∈ keysOf st' ↔
      ∃ i, i < n ∧ ∃ t, getTrack host i = some t ∧ t.tid = tid := by
  unfold updateAllMappings at h
  constructor
  · exact bankLoop_nodup _ h (by rw [keysOf_removeDeviceListeners]; exact List.nodup_nil)
  · intro tid
    rw [bankLoop_keys _ h tid, keysOf_removeDeviceListeners]
    simp [List.mem_range]

theorem nodup_reachable {encoders : List (Option Encoder)} {n : Nat} :
    ∀ {st : CState}, Reachable encoders n st → (keysOf st).Nodup := by
  intro st h
  induction h with
  | init host st h =>
    exact (updateAllMappings_keys h).1
  | remap host st st' _ h ih => exact (updateAllMappings_keys h).1
  | callback host i st st' _ hi h ih =>
    unfold keysOf
    rw [mapEncoder_trackListeners h]
    exact ih
  | disc st _ ih =>
    rw [keysOf_disconnect]
    exact List.nodup_nil

/-! ## Per-slot value of a full remap (claim C1) -/

theorem addDeviceListener_currentParams {host : Host} {i : Nat}
    {st st' : CState} (h : addDeviceListener host i st = .ok st') :
    st'.currentParams = st.currentParams := by
  unfold addDeviceListener at h
  split at h
  · simp only [Except.ok.injEq] at h
    rw [← h]
  · split at h
    · simp only [Except.ok.injEq] at h
      rw [← h]
    · split at h
      · cases h
      · simp only [Except.ok.injEq] at h
        rw [← h]

theorem mapEncoder_getD_ne {host : Host} {encoders : List (Option Encoder)}
    {i j : Nat} {st st' : CState}
    (hm : mapEncoder host encoders j st = .ok st') (hij : i ≠ j) :
    st'.currentParams.getD i none = st.currentParams.getD i none := by
  obtain ⟨h, hcase⟩ := mapEncoder_ok_elim hm
  rcases hcase with ⟨-, rfl⟩ | ⟨e, r, -, -, rfl⟩
  · rfl
  · rw [applyBind_currentParams, List.getD_eq_getElem?_getD,
      List.getElem?_set_ne (fun hc => hij hc.symm), ← List.getD_eq_getElem?_getD]

theorem mapEncoder_currentParams_length {host : Host}
    {encoders : List (Option Encoder)} {j : Nat} {st st' : CState}
    (hm : mapEncoder host encoders j st = .ok st') :
    st'.currentParams.length = st.currentParams.length := by
  obtain ⟨h, hcase⟩ := mapEncoder_ok_elim hm
  rcases hcase with ⟨-, rfl⟩ | ⟨e, r, -, -, rfl⟩
  · rfl
  · rw [applyBind_currentParams, List.length_set]

theorem bankStep_getD_ne {host : Host} {encoders : List (Option Encoder)}
    {i j : Nat} {st st' : CState}
    (h : bankStep host encoders j st = .ok st') (hij : i ≠ j) :
    st'.currentParams.getD i none = st.currentParams.getD i none := by
  unfold bankStep at h
  cases hme : mapEncoder host encoders j st with
  | error e => rw [hme] at h; cases h
  | ok stm =>
    rw [hme] at h
    rw [addDeviceListener_currentParams h]
    exact mapEncoder_getD_ne hme hij

theorem bankStep_currentParams_length {host : Host}
    {encoders : List (Option Encoder)} {j : Nat} {st st' : CState}
    (h : bankStep host encoders j st = .ok st') :
    st'.currentParams.length = st.currentParams.length := by
  unfold bankStep at h
  cases hme : mapEncoder host encoders j st with
  | error e => rw [hme] at h; cases h
  | ok stm =>
    rw [hme] at h
    rw [addDeviceListener_currentParams h]
    exact mapEncoder_currentParams_length hme

theorem bankLoop_getD_not_mem {host : Host} {encoders : List (Option Encoder)}
    {i : Nat} (l : List Nat) :
    ∀ {st st' : CState}, bankLoop host encoders l st = .ok st' → i ∉ l →
      st'.currentParams.getD i none = st.currentParams.getD i none := by
  induction l with
  | nil =>
    intro st st' h _
    unfold bankLoop at h
    simp only [Except.ok.injEq] at h
    rw [← h]
  | cons j rest ih =>
    intro st st' h hmem
    unfold bankLoop at h
    cases hstep : bankStep host encoders j st with
    | error e => rw [hstep] at h; cases h
    | ok st1 =>
      rw [hstep] at h
      have hij : i ≠ j := fun hc => hmem (hc ▸ List.mem_cons_self _ _)
      rw [ih h (fun hc => hmem (List.mem_cons_of_mem _ hc)),
        bankStep_getD_ne hstep hij]

theorem getElem?_some_encoder {encoders : List (Option Encoder)} {i : Nat}
    {e : Encoder} (he : encoders[i]? = some (some e)) :
    ∃ h : i < encoders.length, encoders.get ⟨i, h⟩ = some e := by
  rcases List.getElem?_eq_some.mp he with ⟨h, hg⟩
  exact ⟨h, by rw [List.get_eq_getElem]; exact hg⟩

theorem bankLoop_resolved {host : Host} {encoders : List (Option Encoder)}
    {i : Nat} {e : Encoder} (l : List Nat) :
    ∀ {st st' : CState}, bankLoop host encoders l st = .ok st' → l.Nodup →
      i ∈ l → encoders[i]? = some (some e) → i < st.currentParams.length →
      resolveFreq host i = .ok (st'.currentParams.getD i none) := by
  induction l with
  | nil =>
    intro st st' _ _ hmem
    cases hmem
  | cons j rest ih =>
    intro st st' h hnd hmem he hlt
    unfold bankLoop at h
    cases hstep : bankStep host encoders j st with
    | error err => rw [hstep] at h; cases h
    | ok st1 =>
      rw [hstep] at h
      rcases List.mem_cons.mp hmem with rfl | hmem'
      · -- the head of the loop is slot i itself
        obtain ⟨hl, hg⟩ := getElem?_some_encoder he
        unfold bankStep at hstep
        cases hme : mapEncoder host encoders i st with
        | error err => rw [hme] at hstep; cases hstep
        | ok stm =>
          rw [hme] at hstep
          obtain ⟨hl2, hcase⟩ := mapEncoder_ok_elim hme
          rcases hcase with ⟨hnone, -⟩ | ⟨e2, r, hg2, hr, rfl⟩
          · rw [hg] at hnone
            cases hnone
          · have hrest : i ∉ rest := (List.nodup_cons.mp hnd).1
            rw [bankLoop_getD_not_mem rest h hrest,
              addDeviceListener_currentParams hstep,
              applyBind_currentParams, List.getD_eq_getElem?_getD,
              List.getElem?_set_self hlt]
            exact hr
      · have hij : i ≠ j := by
          intro hc
          exact (List.nodup_cons.mp hnd).1 (hc ▸ hmem')
        refine ih h (List.nodup_cons.mp hnd).2 hmem' he ?_
        rw [bankStep_currentParams_length hstep]
        exact hlt

theorem updateAllMappings_resolved {host : Host}
    {encoders : List (Option Encoder)} {n i : Nat} {e : Encoder}
    {st st' : CState} (h : updateAllMappings host encoders n st = .ok st')
    (hi : i < n) (he : encoders[i]? = some (some e))
    (hlen : n ≤ st.currentParams.length) :
    resolveFreq host i = .ok (st'.currentParams.getD i none) := by
  unfold updateAllMappings at h
  exact bankLoop_resolved _ h (List.nodup_range n) (List.mem_range.mpr hi) he
    (Nat.lt_of_lt_of_le hi hlen)

/-! ## Characterizing a successful resolution (claims C1, C3) -/

theorem findAutoFilter_no_raise {t : Track} (h : t.devicesRaises = false) :
    findAutoFilter (some t) =
      .ok (t.devices.find? (fun d => d.name == AUTO_FILTER_NAME)) := by
  simp [findAutoFilter, h]

theorem findAutoFilter_raise {t : Track} (h : t.devicesRaises = true) :
    findAutoFilter (some t) = .error () := by
  simp [findAutoFilter, h]

theorem getFrequencyParam_no_raise {d : Device} (h : d.paramsRaises = false) :
    getFrequencyParam (some d) =
      .ok (d.parameters.find? (fun q => q.name == FREQUENCY_PARAM_NAME)) := by
  simp [getFrequencyParam, h]

theorem getFrequencyParam_raise {d : Device} (h : d.paramsRaises = true) :
    getFrequencyParam (some d) = .error () := by
  simp [getFrequencyParam, h]

theorem resolveFreq_ok_some_iff {host : Host} {i : Nat} {r : Option Param}
    (h : resolveFreq host i = .ok r) (p : Param) :
    r = some p ↔ ∃ t d, getTrack host i = some t ∧
      t.devices.find? (fun dd => dd.name == AUTO_FILTER_NAME) = some d ∧
      d.parameters.find? (fun q => q.name == FREQUENCY_PARAM_NAME) = some p := by
  unfold resolveFreq at h
  cases hg : getTrack host i with
  | none =>
    rw [hg] at h
    have h2 : (Except.ok (none : Option Param) : Except Unit (Option Param)) = .ok r := h
    simp only [Except.ok.injEq] at h2
    subst h2
    simp
  | some t =>
    rw [hg] at h
    cases hdr : t.devicesRaises with
    | true =>
      rw [findAutoFilter_raise hdr] at h
      have h2 : (Except.error () : Except Unit (Option Param)) = .ok r := h
      cases h2
    | false =>
      rw [findAutoFilter_no_raise hdr] at h
      have h2 : getFrequencyParam
          (t.devices.find? (fun d => d.name == AUTO_FILTER_NAME)) = .ok r := h
      cases hfd : t.devices.find? (fun dd => dd.name == AUTO_FILTER_NAME) with
      | none =>
        rw [hfd] at h2
        have h3 : (Except.ok (none : Option Param) : Except Unit (Option Param)) = .ok r := h2
        simp only [Except.ok.injEq] at h3
        subst h3
        constructor
        · intro hc
          cases hc
        · rintro ⟨t', d, ht', hd, -⟩
          cases ht'
          rw [hfd] at hd
          cases hd
      | some d =>
        rw [hfd] at h2
        cases hpr : d.paramsRaises with
        | true =>
          rw [getFrequencyParam_raise hpr] at h2
          cases h2
        | false =>
          rw [getFrequencyParam_no_raise hpr] at h2
          simp only [Except.ok.injEq] at h2
          subst h2
          constructor
          · intro hp
            exact ⟨t, d, rfl, hfd, hp⟩
          · rintro ⟨t', d', ht', hd', hp'⟩
            cases ht'
            rw [hfd] at hd'
            cases hd'
            exact hp'

/-! ## Totality of a full remap on a benign host (claim C7, amended) -/

theorem resolveFreq_ok_of_benign {host : Host} (hb : benignHost host)
    (i : Nat) : ∃ r, resolveFreq host i = .ok r := by
  unfold resolveFreq
  cases hg : getTrack host i with
  | none => exact ⟨none, rfl⟩
  | some t =>
    have ht := hb t (getTrack_mem hg)
    rw [findAutoFilter_no_raise ht.1]
    cases hfd : t.devices.find? (fun d => d.name == AUTO_FILTER_NAME) with
    | none => exact ⟨none, rfl⟩
    | some d =>
      have hd := ht.2.2 d (List.mem_of_find?_eq_some hfd)
      exact ⟨d.parameters.find? (fun q => q.name == FREQUENCY_PARAM_NAME),
        getFrequencyParam_no_raise hd⟩

theorem mapEncoder_ok_of_benign {host : Host}
    {encoders : List (Option Encoder)} {i : Nat} (hb : benignHost host)
    (hi : i < encoders.length) (st : CState) :
    ∃ st', mapEncoder host encoders i st = .ok st' := by
  cases hg : encoders.get ⟨i, hi⟩ with
  | none => exact ⟨st, mapEncoder_ok_none hi hg st⟩
  | some e =>
    obtain ⟨r, hr⟩ := resolveFreq_ok_of_benign hb i
    exact ⟨_, mapEncoder_some_ok hi hg hr st⟩

theorem addDeviceListener_ok_of_benign {host : Host} (hb : benignHost host)
    (i : Nat) (st : CState) :
    ∃ st', addDeviceListener host i st = .ok st' := by
  unfold addDeviceListener
  split
  · exact ⟨st, rfl⟩
  · rename_i t hg
    split
    · exact ⟨st, rfl⟩
    · have hAdd : t.addListenerRaises = false := (hb t (getTrack_mem hg)).2.1
      rw [hAdd]
      refine ⟨{ st with
          trackListeners := st.trackListeners ++ [(t.tid, (t, i))],
          events := st.events ++ [HEvent.addListenerCall t.tid i] }, ?_⟩
      simp

theorem bankLoop_ok_of_benign {host : Host}
    {encoders : List (Option Encoder)} (hb : benignHost host) (l : List Nat) :
    (∀ i ∈ l, i < encoders.length) →
    ∀ st, ∃ st', bankLoop host encoders l st = .ok st' := by
  induction l with
  | nil => exact fun _ st => ⟨st, rfl⟩
  | cons i rest ih =>
    intro hl st
    obtain ⟨st1, h1⟩ := mapEncoder_ok_of_benign hb (hl i (List.mem_cons_self _ _)) st
    obtain ⟨st2, h2⟩ := addDeviceListener_ok_of_benign hb i st1
    obtain ⟨st', h3⟩ := ih (fun j hj => hl j (List.mem_cons_of_mem _ hj)) st2
    refine ⟨st', ?_⟩
    have hstep : bankStep host encoders i st = .ok st2 := by
      unfold bankStep
      rw [h1]
      exact h2
    unfold bankLoop
    rw [hstep]
    exact h3

/-! ## Claim theorems -/

/-- C2: for every slot index `i`, `_get_track` returns the track at
position `bank_offset + i` of the host's visible-track list (the `[·]?`
lookup is `some` exactly when the index is in range), and returns `none`
whenever the index is out of range or the offset/track-list host calls
raise.  No exception propagates out of track resolution: `getTrack` is a
total function into `Option Track`.  The host contract makes the offset a
nonnegative integer, embedded as `Nat`. -/
theorem c2_track_resolution (host : Host) (i : Nat) :
    (host.offsetRaises = false → host.tracksRaises = false →
      getTrack host i = host.visibleTracks[host.offset + i]?) ∧
    (host.offsetRaises = true ∨ host.tracksRaises = true →
      getTrack host i = none) ∧
    (host.visibleTracks.length ≤ host.offset + i → getTrack host i = none) := by
  refine ⟨fun h1 h2 => getTrack_eq_of_no_raise h1 h2, fun h => getTrack_raise h, ?_⟩
  intro hge
  cases h1 : host.offsetRaises with
  | true => exact getTrack_raise (Or.inl h1)
  | false =>
    cases h2 : host.tracksRaises with
    | true => exact getTrack_raise (Or.inr h2)
    | false =>
      rw [getTrack_eq_of_no_raise h1 h2]
      exact List.getElem?_eq_none hge

/-- Witness for C2 at concrete inputs: on `exGoodHost`, slot 0 resolves to
the track, slot 1 is out of range, and a raising mixer yields `none`. -/
theorem c2_track_resolution_witness :
    getTrack exGoodHost 0 = some exGoodTrack ∧
    getTrack exGoodHost 1 = none ∧
    getTrack ⟨true, 0, false, [exGoodTrack]⟩ 0 = none := by
  refine ⟨?_, ?_, ?_⟩
  · rw [(c2_track_resolution exGoodHost 0).1 rfl rfl]
    rfl
  · exact (c2_track_resolution exGoodHost 1).2.2 (by decide)
  · exact (c2_track_resolution ⟨true, 0, false, [exGoodTrack]⟩ 0).2.1 (Or.inl rfl)

/-- C3: `_find_auto_filter` on a present track (whose device list is
readable) returns the first device, in host order, named exactly
`"Auto Filter"`, and `none` when no device matches; `_get_frequency_param`
on a present device returns the first parameter named exactly
`"Frequency"`, and `none` otherwise; an absent track yields an absent
device (`.ok none`) and an absent device yields an absent parameter
(`.ok none`): absence propagates as `none`, never as an error. -/
theorem c3_lookup_chain :
    (findAutoFilter none = .ok none) ∧
    (getFrequencyParam none = .ok none) ∧
    (∀ t : Track, t.devicesRaises = false →
      findAutoFilter (some t) =
        .ok (t.devices.find? (fun d => d.name == AUTO_FILTER_NAME)) ∧
      (∀ d, t.devices.find? (fun d2 => d2.name == AUTO_FILTER_NAME) = some d →
        d.name = AUTO_FILTER_NAME ∧
        ∃ l1 l2, t.devices = l1 ++ d :: l2 ∧
          ∀ d2 ∈ l1, d2.name ≠ AUTO_FILTER_NAME) ∧
      (t.devices.find? (fun d2 => d2.name == AUTO_FILTER_NAME) = none ↔
        ∀ d ∈ t.devices, d.name ≠ AUTO_FILTER_NAME)) ∧
    (∀ dv : Device, dv.paramsRaises = false →
      getFrequencyParam (some dv) =
        .ok (dv.parameters.find? (fun q => q.name == FREQUENCY_PARAM_NAME)) ∧
      (∀ q, dv.parameters.find? (fun q2 => q2.name == FREQUENCY_PARAM_NAME) = some q →
        q.name = FREQUENCY_PARAM_NAME ∧
        ∃ l1 l2, dv.parameters = l1 ++ q :: l2 ∧
          ∀ q2 ∈ l1, q2.name ≠ FREQUENCY_PARAM_NAME) ∧
      (dv.parameters.find? (fun q2 => q2.name == FREQUENCY_PARAM_NAME) = none ↔
        ∀ q ∈ dv.parameters, q.name ≠ FREQUENCY_PARAM_NAME)) := by
  refine ⟨rfl, rfl, ?_, ?_⟩
  · intro t ht
    refine ⟨findAutoFilter_no_raise ht, ?_, ?_⟩
    · intro d hd
      rcases List.find?_eq_some.mp hd with ⟨hpd, l1, l2, heq, hprev⟩
      refine ⟨by simpa using hpd, l1, l2, heq, ?_⟩
      intro d2 hd2
      simpa using hprev d2 hd2
    · rw [List.find?_eq_none]
      constructor
      · intro hno d hdm
        simpa using hno d hdm
      · intro hno d hdm
        simpa using hno d hdm
  · intro dv hdv
    refine ⟨getFrequencyParam_no_raise hdv, ?_, ?_⟩
    · intro q hq
      rcases List.find?_eq_some.mp hq with ⟨hpq, l1, l2, heq, hprev⟩
      refine ⟨by simpa using hpq, l1, l2, heq, ?_⟩
      intro q2 hq2
      simpa using hprev q2 hq2
    · rw [List.find?_eq_none]
      constructor
      · intro hno q hqm
        simpa using hno q hqm
      · intro hno q hqm
        simpa using hno q hqm

/-- Witness for C3 at concrete inputs: on `exTwoAFTrack` the first Auto
Filter (the parameterless one) wins, and on `exAutoFilter` the Frequency
parameter is found. -/
theorem c3_lookup_chain_witness :
    findAutoFilter (some exTwoAFTrack) = .ok (some exEmptyAutoFilter) ∧
    getFrequencyParam (some exAutoFilter) = .ok (some exFreqParam) := by
  constructor
  · rw [(c3_lookup_chain.2.2.1 exTwoAFTrack rfl).1]
    rfl
  · rw [(c3_lookup_chain.2.2.2 exAutoFilter rfl).1]
    rfl

theorem exRemapResult_eq :
    updateAllMappings exGoodHost exEncoders 1 (exStart 1) = .ok exRemapResult := rfl

theorem exMapResult_eq :
    mapEncoder exGoodHost exEncoders 0 (exStart 1) = .ok exMapResult := rfl

/-- C1 counterexample.  As stated, the claim reads "slot i is bound iff the
track has a device named exactly `Auto Filter` that has a parameter named
exactly `Frequency`".  On `exTwoAFHost` the track's device list is
`[Auto Filter with no parameters, Auto Filter with a Frequency]`: the track
does have an Auto Filter device with a Frequency parameter, yet after a
full remap slot 0 records no parameter (the code inspects only the first
device named `Auto Filter`), so the stated biconditional is false. -/
theorem c1_counterexample :
    (updateAllMappings exTwoAFHost exEncoders 1 (exStart 1)).map
      (fun s => s.currentParams.getD 0 none) = .ok none ∧
    ∃ t, getTrack exTwoAFHost 0 = some t ∧
      ∃ d ∈ t.devices, d.name = AUTO_FILTER_NAME ∧
        ∃ q ∈ d.parameters, q.name = FREQUENCY_PARAM_NAME := by
  refine ⟨rfl, exTwoAFTrack, rfl, exAutoFilter, by decide, rfl, exFreqParam, by decide, rfl⟩

/-- C1 (amended): after a successful full remap, every slot `i` below the
slot count whose encoder entry is non-`None` is bound iff the resolved
track exists and its FIRST device named exactly `"Auto Filter"` has a
parameter named exactly `"Frequency"`; when bound, the recorded current
parameter is the first such `"Frequency"` parameter of that first device,
and otherwise the record is `none`. -/
theorem c1_remap_bound_iff {host : Host} {encoders : List (Option Encoder)}
    {n i : Nat} {e : Encoder} {st st' : CState}
    (h : updateAllMappings host encoders n st = .ok st') (hi : i < n)
    (he : encoders[i]? = some (some e)) (hlen : n ≤ st.currentParams.length) :
    (∀ p, st'.currentParams.getD i none = some p ↔
      ∃ t d, getTrack host i = some t ∧
        t.devices.find? (fun d2 => d2.name == AUTO_FILTER_NAME) = some d ∧
        d.parameters.find? (fun q => q.name == FREQUENCY_PARAM_NAME) = some p) ∧
    ((st'.currentParams.getD i none).isSome ↔
      ∃ t d, getTrack host i = some t ∧
        t.devices.find? (fun d2 => d2.name == AUTO_FILTER_NAME) = some d ∧
        (d.parameters.find? (fun q => q.name == FREQUENCY_PARAM_NAME)).isSome) := by
  have hres := updateAllMappings_resolved h hi he hlen
  have hiff := fun p => resolveFreq_ok_some_iff hres p
  refine ⟨hiff, ?_⟩
  rw [Option.isSome_iff_exists]
  constructor
  · rintro ⟨p, hp⟩
    rcases (hiff p).mp hp with ⟨t, d, ht, hd, hq⟩
    exact ⟨t, d, ht, hd, Option.isSome_iff_exists.mpr ⟨p, hq⟩⟩
  · rintro ⟨t, d, ht, hd, hq⟩
    rcases Option.isSome_iff_exists.mp hq with ⟨p, hp⟩
    exact ⟨p, (hiff p).mpr ⟨t, d, ht, hd, hp⟩⟩

/-- Witness for C1 (amended) at a concrete input: on `exGoodHost` the full
remap binds slot 0 and the recorded parameter is the Frequency of the
first (only) Auto Filter. -/
theorem c1_remap_bound_iff_witness :
    exRemapResult.currentParams.getD 0 none = some exFreqParam ∧
    ∃ t d, getTrack exGoodHost 0 = some t ∧
      t.devices.find? (fun d2 => d2.name == AUTO_FILTER_NAME) = some d ∧
      d.parameters.find? (fun q => q.name == FREQUENCY_PARAM_NAME) = some exFreqParam := by
  have hthm := @c1_remap_bound_iff exGoodHost exEncoders 1 0 exEncoder
    (exStart 1) exRemapResult exRemapResult_eq (by decide) rfl (by decide)
  exact ⟨rfl, (hthm.1 exFreqParam).mp rfl⟩

/-- C4: one rebind of a slot is idempotent — if `_map_encoder i` succeeds,
running it again on the unchanged host succeeds and leaves the recorded
current parameters and the listener registry exactly as after the first
run (only redundant release/bind trace entries are added). -/
theorem c4_rebind_idempotent {host : Host} {encoders : List (Option Encoder)}
    {i : Nat} {st st₁ : CState}
    (hm : mapEncoder host encoders i st = .ok st₁) :
    ∃ st₂, mapEncoder host encoders i st₁ = .ok st₂ ∧
      st₂.currentParams = st₁.currentParams ∧
      st₂.trackListeners = st₁.trackListeners := by
  obtain ⟨h, hcase⟩ := mapEncoder_ok_elim hm
  rcases hcase with ⟨hg, rfl⟩ | ⟨e, r, hg, hr, rfl⟩
  · exact ⟨st₁, mapEncoder_ok_none h hg st₁, rfl, rfl⟩
  · refine ⟨applyBind e i r (applyBind e i r st),
      mapEncoder_some_ok h hg hr _, ?_, ?_⟩
    · rw [applyBind_currentParams, applyBind_currentParams, List.set_set]
    · rw [applyBind_trackListeners, applyBind_trackListeners]

/-- Witness for C4 at a concrete input: rebinding slot 0 again after
`exMapResult` keeps the same recorded parameter and registry. -/
theorem c4_rebind_idempotent_witness :
    ∃ st₂, mapEncoder exGoodHost exEncoders 0 exMapResult = .ok st₂ ∧
      st₂.currentParams = exMapResult.currentParams ∧
      st₂.trackListeners = exMapResult.trackListeners :=
  c4_rebind_idempotent exMapResult_eq

/-- C8: if the encoder's `release_parameter` or `connect_to` raises during
a rebind, the exception is swallowed and `_current_params[i]` is still set
to the newly resolved parameter: a successful rebind always sets the
record to `resolvedParam`, and flipping the encoder's release/connect
raise flags yields a run with identical recorded parameters. -/
theorem c8_bind_failure_still_records {host : Host}
    {encoders : List (Option Encoder)} {i : Nat} {e : Encoder}
    {st st' : CState} (he : encoders[i]? = some (some e))
    (hm : mapEncoder host encoders i st = .ok st') :
    st'.currentParams = st.currentParams.set i (resolvedParam host i) ∧
    ∀ b₁ b₂ : Bool, ∃ st₂,
      mapEncoder host
        (encoders.set i (some { e with releaseRaises := b₁, connectRaises := b₂ }))
        i st = .ok st₂ ∧
      st₂.currentParams = st'.currentParams := by
  obtain ⟨h, hg⟩ := getElem?_some_encoder he
  obtain ⟨h2, hcase⟩ := mapEncoder_ok_elim hm
  rcases hcase with ⟨hnone, -⟩ | ⟨e2, r, hg2, hr, rfl⟩
  · have hc : some e = (none : Option Encoder) := hg.symm.trans hnone
    cases hc
  · constructor
    · rw [applyBind_currentParams]
      unfold resolvedParam
      rw [hr]
    · intro b₁ b₂
      have hlen2 : i < (encoders.set i
          (some { e with releaseRaises := b₁, connectRaises := b₂ })).length := by
        rw [List.length_set]
        exact h
      have hgset : (encoders.set i
          (some { e with releaseRaises := b₁, connectRaises := b₂ })).get ⟨i, hlen2⟩ =
          some { e with releaseRaises := b₁, connectRaises := b₂ } := by
        rw [List.get_eq_getElem]
        exact List.getElem_set_self _
      refine ⟨applyBind { e with releaseRaises := b₁, connectRaises := b₂ } i r st,
        mapEncoder_some_ok hlen2 hgset hr st, ?_⟩
      rw [applyBind_currentParams, applyBind_currentParams]

/-- Witness for C8 at a concrete input: on `exGoodHost` the rebind records
the resolved Frequency, and the run with a release- and connect-raising
encoder records the same parameters. -/
theorem c8_bind_failure_still_records_witness :
    exMapResult.currentParams = (exStart 1).currentParams.set 0 (resolvedParam exGoodHost 0) ∧
    (mapEncoder exGoodHost
      (exEncoders.set 0 (some { exEncoder with releaseRaises := true, connectRaises := true }))
      0 (exStart 1)).map
      (fun s => s.currentParams) = .ok exMapResult.currentParams := by
  have hthm := @c8_bind_failure_still_records exGoodHost exEncoders 0 exEncoder
    (exStart 1) exMapResult rfl exMapResult_eq
  refine ⟨hthm.1, ?_⟩
  obtain ⟨st₂, hok, hcp⟩ := hthm.2 true true
  rw [hok]
  simpa [Except.map] using hcp

/-- C5: in every reachable state the `_track_listeners` registry holds at
most one registration per distinct track identity (its key list has no
duplicates), and after any successful full remap the registered keys are
exactly the identities of the tracks the slots resolve to — one listener
per distinct resolved track even when several slots resolve to the same
track. -/
theorem c5_listener_uniqueness :
    (∀ (encoders : List (Option Encoder)) (n : Nat) (st : CState),
      Reachable encoders n st → (keysOf st).Nodup) ∧
    (∀ (host : Host) (encoders : List (Option Encoder)) (n : Nat)
      (st st' : CState), updateAllMappings host encoders n st = .ok st' →
      (keysOf st').Nodup ∧
      ∀ tid, tid ∈ keysOf st' ↔
        ∃ i, i < n ∧ ∃ t, getTrack host i = some t ∧ t.tid = tid) :=
  ⟨fun _ _ _ h => nodup_reachable h, fun _ _ _ _ _ h => updateAllMappings_keys h⟩

/-- Witness for C5 at a concrete input: the state after the initial remap
on `exGoodHost` has duplicate-free keys, and track identity 1 is
registered because slot 0 resolves to `exGoodTrack`. -/
theorem c5_listener_uniqueness_witness :
    (keysOf exRemapResult).Nodup ∧
    (1 ∈ keysOf exRemapResult ↔
      ∃ i, i < 1 ∧ ∃ t, getTrack exGoodHost i = some t ∧ t.tid = 1) := by
  have h1 := c5_listener_uniqueness.1 exEncoders 1 exRemapResult
    (Reachable.init exGoodHost exRemapResult rfl)
  have h2 := c5_listener_uniqueness.2 exGoodHost exEncoders 1 (exStart 1)
    exRemapResult exRemapResult_eq
  exact ⟨h1, h2.2 1⟩

/-- C6 counterexample.  The claim says that after `disconnect()` no slot
still records a bound parameter.  Starting from the constructor on
`exGoodHost` (slot 0 bound to the Frequency parameter), `disconnect`
leaves `_current_params[0]` equal to that parameter: the code releases the
encoders and clears the listener registry but never clears
`_current_params`. -/
theorem c6_counterexample :
    (initComponent exGoodHost exEncoders 1).map
      (fun s => (disconnect exEncoders s).currentParams.getD 0 none) =
      .ok (some exFreqParam) ∧
    some exFreqParam ≠ (none : Option Param) := ⟨rfl, by simp⟩

/-- C6 (amended): after `disconnect()` the listener registry is empty and
every non-`None` encoder has had a (best-effort) `release_parameter` call
issued, but the recorded `_current_params` array is left unchanged rather
than cleared. -/
theorem c6_disconnect_teardown (encoders : List (Option Encoder))
    (st : CState) :
    (disconnect encoders st).trackListeners = [] ∧
    (disconnect encoders st).currentParams = st.currentParams ∧
    ∀ e : Encoder, some e ∈ encoders →
      HEvent.releaseCall e.eid (!e.releaseRaises) ∈ (disconnect encoders st).events := by
  refine ⟨rfl, rfl, ?_⟩
  intro e he
  unfold disconnect removeDeviceListeners
  simp only [List.append_assoc, List.mem_append]
  refine Or.inr (Or.inr (List.mem_map.mpr ⟨e, ?_, rfl⟩))
  exact List.mem_filterMap.mpr ⟨some e, he, rfl⟩

/-- Witness for C6 (amended) at a concrete input. -/
theorem c6_disconnect_teardown_witness :
    (disconnect exEncoders (exStart 1)).trackListeners = [] ∧
    (disconnect exEncoders (exStart 1)).currentParams = (exStart 1).currentParams ∧
    HEvent.releaseCall 7 true ∈ (disconnect exEncoders (exStart 1)).events := by
  have h := c6_disconnect_teardown exEncoders (exStart 1)
  exact ⟨h.1, h.2.1, h.2.2 exEncoder (by decide)⟩

/-- C7 counterexample.  The claim says no entry point ever propagates an
exception, in particular that a full remap completes even when
device-list enumeration, parameter enumeration or listener registration
raise.  In the code those three calls are not guarded by any `try`, and a
full remap raises on each of the three hosts below (a track whose
`devices` raises, an Auto Filter whose `parameters` raises, and a track
whose `add_devices_listener` raises). -/
theorem c7_counterexample :
    updateAllMappings exRaisingHost exEncoders 1 (exStart 1) = .error () ∧
    updateAllMappings exParamsRaisingHost exEncoders 1 (exStart 1) = .error () ∧
    updateAllMappings exListenerRaisingHost exEncoders 1 (exStart 1) = .error () :=
  ⟨rfl, rfl, rfl⟩

/-- C7 (amended): mixer/song lookup failures and encoder release/connect
failures are always swallowed — on a host whose device lists, parameter
lists and listener registration do not raise (`benignHost`) a full remap
always completes without raising, whatever the mixer, song and encoders
do; but exceptions from device enumeration, parameter enumeration or
listener registration do propagate (see the counterexample). -/
theorem c7_remap_total_on_benign_host {host : Host}
    {encoders : List (Option Encoder)} {n : Nat} (hb : benignHost host)
    (hn : n ≤ encoders.length) (st : CState) :
    ∃ st', updateAllMappings host encoders n st = .ok st' := by
  unfold updateAllMappings
  exact bankLoop_ok_of_benign hb _
    (fun i hi => Nat.lt_of_lt_of_le (List.mem_range.mp hi) hn) _

/-- Witness for C7 (amended) at a concrete input: on a host whose mixer
raises but whose track is benign, the full remap still completes. -/
theorem c7_remap_total_on_benign_host_witness :
    ∃ st', updateAllMappings ⟨true, 0, false, [exGoodTrack]⟩ exEncoders 1
      (exStart 1) = .ok st' :=
  c7_remap_total_on_benign_host (by unfold benignHost; decide) (by decide) (exStart 1)

/-- C9 counterexample.  The claim says `current_params[i]` always equals
the parameter last successfully bound to slot `i`, or `none` if the slot
is unbound.  With an encoder whose `connect_to` raises, construction on
`exGoodHost` leaves slot 0 unbound (no bind ever succeeded — the trace
replay `encoderBound` yields `none`), yet `current_params[0]` records the
resolved Frequency parameter. -/
theorem c9_counterexample :
    (initComponent exGoodHost exConnRaisesEncoders 1).map
      (fun s => (s.currentParams.getD 0 none, encoderBound s.events 9)) =
      .ok (some exFreqParam, none) ∧
    some exFreqParam ≠ (none : Option Param) := ⟨rfl, by simp⟩

/-- C9 (amended): in every reachable state, `_current_params` has the
component's slot count and `current_params[i]` equals the parameter
resolved by the most recent rebind of slot `i` (the value of the latest
`_current_params[i] = _` assignment in the trace, `none` if there was
none), regardless of whether the underlying release/connect host calls
succeeded; every operation — construction, rebind, full remap, listener
callback and disconnect — preserves this. -/
theorem c9_bookkeeping_invariant {encoders : List (Option Encoder)}
    {n : Nat} (hlen : encoders.length = n) {st : CState}
    (h : Reachable encoders n st) :
    st.currentParams.length = n ∧
    ∀ i, st.currentParams.getD i none = lastRebind st.events i :=
  paramsInv_reachable hlen h

/-- Witness for C9 (amended) at a concrete input: the state after
construction on `exGoodHost`. -/
theorem c9_bookkeeping_invariant_witness :
    exRemapResult.currentParams.length = 1 ∧
    exRemapResult.currentParams.getD 0 none = lastRebind exRemapResult.events 0 := by
  have h := @c9_bookkeeping_invariant exEncoders 1 rfl exRemapResult
    (Reachable.init exGoodHost exRemapResult rfl)
  exact ⟨h.1, h.2 0⟩

/-- C10: a slot whose encoder entry is `None` makes `_map_encoder` a
complete no-op — the state (including the call trace) is returned
unchanged, so no release or bind call is issued and
`_current_params[i]` is untouched; and `disconnect` skips `None` encoder
entries entirely (removing a `None` entry from the bank changes nothing).
-/
theorem c10_none_encoder_noop :
    (∀ (host : Host) (encoders : List (Option Encoder)) (i : Nat)
      (st : CState), encoders[i]? = some none →
      mapEncoder host encoders i st = .ok st) ∧
    (∀ (l1 l2 : List (Option Encoder)) (st : CState),
      disconnect (l1 ++ none :: l2) st = disconnect (l1 ++ l2) st) := by
  constructor
  · intro host encoders i st he
    rcases List.getElem?_eq_some.mp he with ⟨h, hg⟩
    refine mapEncoder_ok_none h ?_ st
    rw [List.get_eq_getElem]
    exact hg
  · intro l1 l2 st
    unfold disconnect
    simp [List.filterMap_append]

/-- Witness for C10 at concrete inputs. -/
theorem c10_none_encoder_noop_witness :
    mapEncoder exGoodHost [none] 0 (exStart 1) = .ok (exStart 1) ∧
    disconnect ([some exEncoder] ++ none :: []) (exStart 1) =
      disconnect ([some exEncoder] ++ []) (exStart 1) :=
  ⟨c10_none_encoder_noop.1 exGoodHost [none] 0 (exStart 1) rfl,
   c10_none_encoder_noop.2 [some exEncoder] [] (exStart 1)⟩
